import Mathlib

/-!
Verification of the paged storage substrate of the bustub fork: the LRU
replacer (src/buffer/lru_replacer.cpp), the buffer pool manager
(src/buffer/buffer_pool_manager.cpp) and the B+ tree leaf and internal pages
(src/storage/page/b_plus_tree_leaf_page.cpp,
src/storage/page/b_plus_tree_internal_page.cpp).

The C++ code is shallowly embedded: each page is a record holding its size and
the full backing slot array (a total function from slot index to a pair), so
that slots at or beyond the current size hold stale bytes exactly as on the
physical page; the buffer pool is a record of frames, page table, free list,
replacer and the disk allocation cursor, and every operation is a pure state
transformer translated line by line from the source. Keys, record ids and page
ids are modelled as Int; sizes and frame ids as Nat.
-/

/-- Comparator on integer keys, mirroring GenericComparator: it returns -1 when
the first key is smaller, 1 when it is larger and 0 when they are equal. -/
def keyCmp (a b : Int) : Int :=
  if a < b then -1 else if b < a then 1 else 0

/-! ## B+ tree leaf page (b_plus_tree_leaf_page.cpp) -/

/-- A B+ tree leaf page: current size plus the full backing slot array. Each
slot is a pair of a key and a value (the RID, collapsed to an Int). Slots at
index at least the size are the uninitialized or stale region of the page. -/
structure LeafPage where
  size : Nat
  arr : Nat → Int × Int

/-- The while loop of KeyIndex (binary search for the first slot whose key is
at least the target). The C++ loop tracks ints left and right with guard
left <= right; here right1 stands for right + 1, so that the guard becomes
left < right1 and the C++ state right = -1 is right1 = 0. The fuel argument
only bounds the iterations of the while loop: right1 - left strictly shrinks
on every iteration, so any fuel larger than the initial right1 - left makes
the 0 case unreachable; the 0 case returns left like the loop exit. -/
def keyIndexLoop (a : Nat → Int × Int) (key : Int) : Nat → Nat → Nat → Nat
  | 0, left, _ => left
  | fuel + 1, left, right1 =>
    if left < right1 then
      let mid := left + (right1 - 1 - left) / 2
      if keyCmp (a mid).1 key < 0 then keyIndexLoop a key fuel (mid + 1) right1
      else if 0 < keyCmp (a mid).1 key then keyIndexLoop a key fuel left mid
      else mid
    else left

/-- KeyIndex: left starts at 0 and right at size - 1, i.e. right1 = size. -/
def LeafPage.keyIndex (pg : LeafPage) (key : Int) : Nat :=
  keyIndexLoop pg.arr key (pg.size + 2) 0 pg.size

/-- InsertAt: when the size is nonzero, shift the slots from index on one step
to the right (the C++ loop runs i from size down to index + 1 writing
array[i] = array[i-1]), then write the pair at index and grow the size. -/
def LeafPage.insertAt (pg : LeafPage) (index : Nat) (pair : Int × Int) : LeafPage :=
  let shifted : Nat → Int × Int :=
    if pg.size = 0 then pg.arr
    else fun j => if index < j ∧ j ≤ pg.size then pg.arr (j - 1) else pg.arr j
  { size := pg.size + 1,
    arr := fun j => if j = index then pair else shifted j }

/-- Insert: find the slot by KeyIndex, refuse when the key at that slot equals
the inserted key (note: the slot is read even when KeyIndex returns size),
otherwise InsertAt. Returns the size after the operation plus the page. -/
def LeafPage.insert (pg : LeafPage) (key v : Int) : Nat × LeafPage :=
  let index := pg.keyIndex key
  if keyCmp key (pg.arr index).1 = 0 then (pg.size, pg)
  else
    let pg1 := pg.insertAt index (key, v)
    (pg1.size, pg1)

/-- The slot index that Insert's duplicate check reads: Insert compares the key
against KeyAt(KeyIndex(key, comparator)) before any bounds test. -/
def LeafPage.insertDupCheckIndex (pg : LeafPage) (key : Int) : Nat :=
  pg.keyIndex key

/-- Lookup: miss when KeyIndex lands at or beyond size or at a different key,
otherwise return the value at that slot. -/
def LeafPage.lookup (pg : LeafPage) (key : Int) : Option Int :=
  let index := pg.keyIndex key
  if pg.size ≤ index then none
  else if keyCmp (pg.arr index).1 key = 0 then some (pg.arr index).2
  else none

/-- RemoveAt: the C++ loop runs i from index while i < size - 1 writing
array[i] = array[i+1], then the size shrinks by one. The slot at the old
size - 1 keeps its stale value. -/
def LeafPage.removeAt (pg : LeafPage) (index : Nat) : LeafPage :=
  { size := pg.size - 1,
    arr := fun j => if index ≤ j ∧ j + 1 < pg.size then pg.arr (j + 1) else pg.arr j }

/-- RemoveAndDeleteRecord: no-op when the key is absent, otherwise RemoveAt.
Returns the size after the operation plus the page. -/
def LeafPage.removeAndDeleteRecord (pg : LeafPage) (key : Int) : Nat × LeafPage :=
  let index := pg.keyIndex key
  if pg.size ≤ index then (pg.size, pg)
  else if keyCmp (pg.arr index).1 key = 0 then
    let pg1 := pg.removeAt index
    (pg1.size, pg1)
  else (pg.size, pg)

/-- CopyNFrom: append the items in order, each via InsertAt at the current
size. -/
def LeafPage.copyNFrom (pg : LeafPage) (items : Nat → Int × Int) (n : Nat) : LeafPage :=
  (List.range n).foldl (fun q i => q.insertAt q.size (items i)) pg

/-- MoveHalfTo: half_size = size / 2 trailing pairs are appended to the
recipient via CopyNFrom on the subarray starting at size - half_size, then the
source size shrinks by half_size. -/
def LeafPage.moveHalfTo (pg recipient : LeafPage) : LeafPage × LeafPage :=
  let half := pg.size / 2
  let recipient1 := recipient.copyNFrom (fun i => pg.arr (pg.size - half + i)) half
  ({ pg with size := pg.size - half }, recipient1)

/-- The visible content of a leaf page: the initialized slots, in order. -/
def LeafPage.entries (pg : LeafPage) : List (Int × Int) :=
  (List.range pg.size).map pg.arr

/-- Strict sortedness of the initialized slots of a leaf page. -/
def LeafPage.SortedKeys (pg : LeafPage) : Prop :=
  ∀ i < pg.size, ∀ j < pg.size, i < j → (pg.arr i).1 < (pg.arr j).1

instance (pg : LeafPage) : Decidable pg.SortedKeys :=
  inferInstanceAs
    (Decidable (∀ i < pg.size, ∀ j < pg.size, i < j → (pg.arr i).1 < (pg.arr j).1))

/-! ## B+ tree internal page (b_plus_tree_internal_page.cpp) -/

/-- A B+ tree internal page: its own page id, current size and the backing
slot array of pairs of separator key and child page id. Slot 0's key is the
sentinel. -/
structure InternalPage where
  pageId : Int
  size : Nat
  arr : Nat → Int × Int

/-- The while loop of the internal Lookup. It tracks ints left and right with
guard left < right - 1; right can reach left - 1, so both stay Int here. The
fuel only bounds the iterations (right - left shrinks every iteration); the 0
case returns ValueAt(left) like the loop exit and is unreachable for any fuel
larger than the initial right - left. -/
def internalLookupLoop (a : Nat → Int × Int) (key : Int) : Nat → Int → Int → Int
  | 0, left, _ => (a left.toNat).2
  | fuel + 1, left, right =>
    if left < right - 1 then
      let mid := left + (right - left) / 2
      if 0 < keyCmp (a mid.toNat).1 key then internalLookupLoop a key fuel left (mid - 1)
      else if keyCmp (a mid.toNat).1 key < 0 then internalLookupLoop a key fuel (mid + 1) right
      else (a mid.toNat).2
    else (a left.toNat).2

/-- Lookup on an internal page: return ValueAt(0) when size is 1 or the key is
below the first separator, else run the binary search loop with left = 1 and
right = size - 1. -/
def InternalPage.lookup (pg : InternalPage) (key : Int) : Int :=
  if pg.size = 1 ∨ keyCmp key (pg.arr 1).1 = -1 then (pg.arr 0).2
  else internalLookupLoop pg.arr key (pg.size + 2) 1 ((pg.size : Int) - 1)

/-- Written from the words of the specification, not from the source, for
comparison with InternalPage.lookup: return the value at the greatest index i
in [1, size) whose key is at most the search key, falling back to slot 0 when
size = 1 or the key is below the first separator. -/
def InternalPage.lookupSpec (pg : InternalPage) (key : Int) : Int :=
  if pg.size = 1 ∨ key < (pg.arr 1).1 then (pg.arr 0).2
  else
    let i := (List.range pg.size).foldl
      (fun acc j => if 1 ≤ j ∧ (pg.arr j).1 ≤ key then j else acc) 0
    (pg.arr i).2

/-- InsertAt on an internal page: identical slot shuffle to the leaf version;
the page id is untouched. -/
def InternalPage.insertAt (pg : InternalPage) (index : Nat) (pair : Int × Int) :
    InternalPage :=
  let shifted : Nat → Int × Int :=
    if pg.size = 0 then pg.arr
    else fun j => if index < j ∧ j ≤ pg.size then pg.arr (j - 1) else pg.arr j
  { pg with size := pg.size + 1,
            arr := fun j => if j = index then pair else shifted j }

/-- Remove(index) on an internal page: shift the tail one step left and shrink
the size by one, leaving the slot at the old size - 1 stale. -/
def InternalPage.remove (pg : InternalPage) (index : Nat) : InternalPage :=
  { pg with size := pg.size - 1,
            arr := fun j => if index ≤ j ∧ j + 1 < pg.size then pg.arr (j + 1) else pg.arr j }

/-- SetParentToMe: fetch the child page through the buffer pool and overwrite
its parent page id with this page's id, unpinning dirty. The store of parent
pointers of all pages is modelled as a map from page id to parent page id. -/
def InternalPage.setParentToMe (pg : InternalPage) (child : Int) (parents : Int → Int) :
    Int → Int :=
  fun q => if q = child then pg.pageId else parents q

/-- CopyLastFrom: adopt the moved child (SetParentToMe on pair.second), then
append the pair via InsertAt at the current size. -/
def InternalPage.copyLastFrom (pg : InternalPage) (pair : Int × Int) (parents : Int → Int) :
    InternalPage × (Int → Int) :=
  (pg.insertAt pg.size pair, pg.setParentToMe pair.2 parents)

/-- CopyNFrom on an internal page: CopyLastFrom for each of the n items in
order, threading the parent store. -/
def InternalPage.copyNFrom (pg : InternalPage) (items : Nat → Int × Int) (n : Nat)
    (parents : Int → Int) : InternalPage × (Int → Int) :=
  (List.range n).foldl (fun q i => q.1.copyLastFrom (items i) q.2) (pg, parents)

/-- MoveFirstToEndOf: the recipient receives (middle_key, ValueAt(0)) via
CopyLastFrom, then Remove(0) shifts this page's remaining entries down. -/
def InternalPage.moveFirstToEndOf (pg recipient : InternalPage) (middleKey : Int)
    (parents : Int → Int) : InternalPage × InternalPage × (Int → Int) :=
  let r := recipient.copyLastFrom (middleKey, (pg.arr 0).2) parents
  (pg.remove 0, r.1, r.2)

/-- MoveAllTo: MoveFirstToEndOf, then CopyNFrom of the remaining GetSize()
entries starting at the (already shifted) slot 0, then SetSize(0). Returns the
source, the recipient and the parent store after the operation. -/
def InternalPage.moveAllTo (pg recipient : InternalPage) (middleKey : Int)
    (parents : Int → Int) : InternalPage × InternalPage × (Int → Int) :=
  let step1 := pg.moveFirstToEndOf recipient middleKey parents
  let pg1 := step1.1
  let step2 := step1.2.1.copyNFrom pg1.arr pg1.size step1.2.2
  ({ pg1 with size := 0 }, step2.1, step2.2)

/-- The visible content of an internal page: the initialized slots, in order. -/
def InternalPage.entries (pg : InternalPage) : List (Int × Int) :=
  (List.range pg.size).map pg.arr

/-! ## LRU replacer (lru_replacer.cpp) -/

/-- The LRU replacer: a capacity (pool size) and the buffer of frame ids,
most recently unpinned at the front. -/
structure LRUReplacer where
  capacity : Nat
  buffer : List Nat

/-- Victim: on a nonempty buffer remove and return the entry at index
size - 1, the back, which is the least recently unpinned frame. -/
def LRUReplacer.victim (r : LRUReplacer) : Option Nat × LRUReplacer :=
  match r.buffer with
  | [] => (none, r)
  | x :: xs =>
    (some ((x :: xs).getLast (List.cons_ne_nil x xs)),
     { r with buffer := (x :: xs).dropLast })

/-- Pin: erase the first occurrence of the frame from the buffer, if any. -/
def LRUReplacer.pin (r : LRUReplacer) (f : Nat) : LRUReplacer :=
  { r with buffer := r.buffer.erase f }

/-- Unpin: return unchanged when the frame is already present; otherwise
insert it at the front and, when the buffer then exceeds the capacity, drop
the back entry. -/
def LRUReplacer.unpin (r : LRUReplacer) (f : Nat) : LRUReplacer :=
  if f ∈ r.buffer then r
  else if r.capacity < (f :: r.buffer).length then { r with buffer := (f :: r.buffer).dropLast }
  else { r with buffer := f :: r.buffer }

/-! ## Buffer pool manager (buffer_pool_manager.cpp) -/

/-- A frame's metadata: the logical page held (or -1), the pin count (an int
in the source), and the dirty flag. Page data bytes are not modelled; no
claim concerns them. -/
structure Frame where
  pageId : Int
  pinCount : Int
  isDirty : Bool

/-- The buffer pool manager state. The page table is a map from page id to
frame id; the disk manager is represented by its allocation cursor
nextPageId (AllocatePage returns consecutive ids), with ReadPage and
WritePage dropped since page bytes are not modelled. -/
structure BPMState where
  frames : Nat → Frame
  pageTable : Int → Option Nat
  freeList : List Nat
  replacer : LRUReplacer
  nextPageId : Int

/-- Point update of the frame array. -/
def updFrame (fs : Nat → Frame) (i : Nat) (fr : Frame) : Nat → Frame :=
  fun j => if j = i then fr else fs j

/-- unordered_map::insert - it keeps the old mapping when the key is already
present. -/
def ptInsert (pt : Int → Option Nat) (p : Int) (f : Nat) : Int → Option Nat :=
  fun q => if q = p then (match pt p with | some g => some g | none => some f) else pt q

/-- unordered_map::erase. -/
def ptErase (pt : Int → Option Nat) (p : Int) : Int → Option Nat :=
  fun q => if q = p then none else pt q

/-- FetchPageImpl. Returns the frame id handed to the caller (none for the C++
nullptr) together with the state after the call. -/
def fetchPageImpl (s : BPMState) (p : Int) : Option Nat × BPMState :=
  match s.pageTable p with
  | some fid =>
    let fr := s.frames fid
    (some fid,
     { s with frames := updFrame s.frames fid { fr with pinCount := fr.pinCount + 1 },
              replacer := s.replacer.pin fid })
  | none =>
    match s.freeList with
    | fid :: rest =>
      (some fid,
       { s with freeList := rest,
                pageTable := ptInsert s.pageTable p fid,
                frames := updFrame s.frames fid { pageId := p, pinCount := 1, isDirty := false } })
    | [] =>
      match s.replacer.victim with
      | (some fid, r) =>
        let old := (s.frames fid).pageId
        (some fid,
         { s with replacer := r,
                  pageTable := ptInsert (ptErase s.pageTable old) p fid,
                  frames := updFrame s.frames fid { pageId := p, pinCount := 1, isDirty := false } })
      | (none, _) => (none, s)

/-- UnpinPageImpl. -/
def unpinPageImpl (s : BPMState) (p : Int) (d : Bool) : Bool × BPMState :=
  match s.pageTable p with
  | none => (true, s)
  | some fid =>
    let fr := s.frames fid
    if fr.pinCount ≤ 0 then (false, s)
    else
      (true,
       { s with frames := updFrame s.frames fid
                  { fr with pinCount := fr.pinCount - 1, isDirty := fr.isDirty || d },
                replacer := if fr.pinCount - 1 = 0 then s.replacer.unpin fid else s.replacer })

/-- FlushPageImpl: absent pages report false; otherwise the write-back clears
the dirty flag. -/
def flushPageImpl (s : BPMState) (p : Int) : Bool × BPMState :=
  match s.pageTable p with
  | none => (false, s)
  | some fid =>
    let fr := s.frames fid
    (true, { s with frames := updFrame s.frames fid { fr with isDirty := false } })

/-- The tail of NewPageImpl once a frame has been acquired (from the free list
or the replacer): write back the victim if dirty (a disk no-op here), allocate
the new page id, erase the frame's old mapping, reset the metadata and install
the new mapping. Returns the frame id and the allocated page id. -/
def newPageFrame (s : BPMState) (fid : Nat) : Option (Nat × Int) × BPMState :=
  let fr := s.frames fid
  let newid := s.nextPageId
  (some (fid, newid),
   { s with nextPageId := newid + 1,
            pageTable := ptInsert (ptErase s.pageTable fr.pageId) newid fid,
            frames := updFrame s.frames fid { pageId := newid, pinCount := 1, isDirty := false } })

/-- NewPageImpl: prefer the free list, else ask the replacer for a victim;
with neither available return nullptr (none) with the state untouched. -/
def newPageImpl (s : BPMState) : Option (Nat × Int) × BPMState :=
  match s.freeList with
  | fid :: rest => newPageFrame { s with freeList := rest } fid
  | [] =>
    match s.replacer.victim with
    | (some fid, r) => newPageFrame { s with replacer := r } fid
    | (none, _) => (none, s)

/-- DeletePageImpl. -/
def deletePageImpl (s : BPMState) (p : Int) : Bool × BPMState :=
  match s.pageTable p with
  | none => (true, s)
  | some fid =>
    let fr := s.frames fid
    if 0 < fr.pinCount then (false, s)
    else
      (true,
       { s with replacer := s.replacer.pin fid,
                frames := updFrame s.frames fid { fr with isDirty := false, pageId := -1 },
                pageTable := ptErase s.pageTable p,
                freeList := s.freeList ++ [fid] })

/-- The operations a caller can issue against the buffer pool. -/
inductive BPMOp where
  | fetch (p : Int)
  | unpin (p : Int) (d : Bool)
  | newp
  | delete (p : Int)
  | flush (p : Int)

/-- The state transition of one operation (return values dropped). -/
def applyOp (s : BPMState) : BPMOp → BPMState
  | .fetch p => (fetchPageImpl s p).2
  | .unpin p d => (unpinPageImpl s p d).2
  | .newp => (newPageImpl s).2
  | .delete p => (deletePageImpl s p).2
  | .flush p => (flushPageImpl s p).2

/-- The initial state of a pool of n frames: all frames invalid, clean and
unpinned, every frame id on the free list in order, page table and replacer
empty, disk allocation cursor at 0. -/
def initState (n : Nat) : BPMState :=
  { frames := fun _ => { pageId := -1, pinCount := 0, isDirty := false },
    pageTable := fun _ => none,
    freeList := List.range n,
    replacer := { capacity := n, buffer := [] },
    nextPageId := 0 }

/-- The state reached from the initial state by a sequence of operations. -/
def run (n : Nat) (ops : List BPMOp) : BPMState :=
  ops.foldl applyOp (initState n)

/-- The buffer pool invariant carried through every operation. pinZero is the
property of claim C3; the other fields are the auxiliary facts needed to push
it through the five operations. -/
structure BPMInv (s : BPMState) : Prop where
  nodupReplacer : s.replacer.buffer.Nodup
  nodupFree : s.freeList.Nodup
  pinZero : ∀ f ∈ s.replacer.buffer, (s.frames f).pinCount = 0
  freeNotInReplacer : ∀ f ∈ s.freeList, f ∉ s.replacer.buffer
  tableNotInFree : ∀ p f, s.pageTable p = some f → f ∉ s.freeList
  tablePageId : ∀ p f, s.pageTable p = some f → (s.frames f).pageId = p

/-! ## Helper lemmas about the replacer -/

theorem LRUReplacer.pin_capacity (r : LRUReplacer) (f : Nat) :
    (r.pin f).capacity = r.capacity := rfl

theorem LRUReplacer.mem_pin (r : LRUReplacer) (f g : Nat)
    (h : g ∈ (r.pin f).buffer) : g ∈ r.buffer :=
  List.mem_of_mem_erase h

theorem LRUReplacer.nodup_pin (r : LRUReplacer) (f : Nat)
    (h : r.buffer.Nodup) : (r.pin f).buffer.Nodup :=
  (List.erase_sublist f r.buffer).nodup h

theorem LRUReplacer.not_mem_pin_self (r : LRUReplacer) (f : Nat)
    (h : r.buffer.Nodup) : f ∉ (r.pin f).buffer :=
  h.not_mem_erase

theorem LRUReplacer.victim_none (r : LRUReplacer) (h : r.buffer = []) :
    r.victim = (none, r) := by
  unfold LRUReplacer.victim
  rw [h]

theorem LRUReplacer.victim_none_iff (r : LRUReplacer) :
    (r.victim).1 = none ↔ r.buffer = [] := by
  unfold LRUReplacer.victim
  cases h : r.buffer <;> simp

theorem LRUReplacer.victim_capacity (r : LRUReplacer) :
    (r.victim).2.capacity = r.capacity := by
  unfold LRUReplacer.victim
  cases h : r.buffer <;> simp

theorem LRUReplacer.victim_buffer (r : LRUReplacer) :
    (r.victim).2.buffer = r.buffer.dropLast ∨ (r.victim).2 = r := by
  unfold LRUReplacer.victim
  cases h : r.buffer <;> simp

theorem LRUReplacer.victim_some (r : LRUReplacer) (f : Nat) (r2 : LRUReplacer)
    (h : r.victim = (some f, r2)) :
    r2.capacity = r.capacity ∧ r2.buffer = r.buffer.dropLast ∧
      f ∈ r.buffer ∧ (r.buffer.Nodup → f ∉ r2.buffer) := by
  revert h
  unfold LRUReplacer.victim
  cases hb : r.buffer with
  | nil => intro h; cases h
  | cons x xs =>
    intro h
    have hne : x :: xs ≠ [] := List.cons_ne_nil x xs
    have hf : f = (x :: xs).getLast hne := by
      have := congrArg Prod.fst h
      simpa using this.symm
    have hr2 : r2 = { r with buffer := (x :: xs).dropLast } := by
      have := congrArg Prod.snd h
      simpa using this.symm
    subst hf hr2
    refine ⟨rfl, rfl, List.getLast_mem hne, ?_⟩
    intro hnd hmem
    have hsplit : (x :: xs).dropLast ++ [(x :: xs).getLast hne] = x :: xs :=
      List.dropLast_append_getLast hne
    have hnd2 : ((x :: xs).dropLast ++ [(x :: xs).getLast hne]).Nodup := by
      rw [hsplit]; exact hnd
    rcases List.nodup_append.mp hnd2 with ⟨-, -, hdisj⟩
    exact hdisj hmem (by simp)

theorem LRUReplacer.unpin_capacity (r : LRUReplacer) (f : Nat) :
    (r.unpin f).capacity = r.capacity := by
  unfold LRUReplacer.unpin
  split
  · rfl
  · split <;> rfl

theorem LRUReplacer.mem_unpin (r : LRUReplacer) (f g : Nat)
    (h : g ∈ (r.unpin f).buffer) : g = f ∨ g ∈ r.buffer := by
  revert h
  unfold LRUReplacer.unpin
  split
  · exact fun h => Or.inr h
  · split
    · intro h
      have : g ∈ f :: r.buffer := (List.dropLast_sublist (f :: r.buffer)).mem h
      simpa using this
    · intro h
      simpa using h

theorem LRUReplacer.nodup_unpin (r : LRUReplacer) (f : Nat)
    (h : r.buffer.Nodup) : (r.unpin f).buffer.Nodup := by
  unfold LRUReplacer.unpin
  split
  · exact h
  · rename_i hmem
    have hcons : (f :: r.buffer).Nodup := List.nodup_cons.mpr ⟨hmem, h⟩
    split
    · exact (List.dropLast_sublist (f :: r.buffer)).nodup hcons
    · exact hcons

theorem LRUReplacer.unpin_eq_of_mem (r : LRUReplacer) (f : Nat)
    (h : f ∈ r.buffer) : r.unpin f = r := by
  unfold LRUReplacer.unpin
  rw [if_pos h]

theorem LRUReplacer.mem_unpin_self (r : LRUReplacer) (f : Nat)
    (hcap : 1 ≤ r.capacity) : f ∈ (r.unpin f).buffer := by
  unfold LRUReplacer.unpin
  split
  · assumption
  · split
    · rename_i hlen
      cases hb : r.buffer with
      | nil =>
        rw [hb] at hlen
        simp at hlen
        omega
      | cons x xs =>
        simp
    · simp

/-! ## Helper lemmas about the page table and frame array -/

theorem updFrame_same (fs : Nat → Frame) (i : Nat) (fr : Frame) :
    updFrame fs i fr i = fr := by
  unfold updFrame
  simp

theorem updFrame_ne (fs : Nat → Frame) (i : Nat) (fr : Frame) (j : Nat)
    (h : j ≠ i) : updFrame fs i fr j = fs j := by
  unfold updFrame
  simp [h]

theorem ptErase_eq_some (pt : Int → Option Nat) (p q : Int) (f : Nat)
    (h : ptErase pt p q = some f) : q ≠ p ∧ pt q = some f := by
  revert h
  unfold ptErase
  split
  · intro h; cases h
  · intro h; exact ⟨by assumption, h⟩

theorem ptInsert_eq_some (pt : Int → Option Nat) (p : Int) (f : Nat) (q : Int) (g : Nat)
    (h : ptInsert pt p f q = some g) :
    (q = p ∧ (pt p = some g ∨ (pt p = none ∧ g = f))) ∨ (q ≠ p ∧ pt q = some g) := by
  revert h
  unfold ptInsert
  split
  · rename_i hq
    cases hp : pt p with
    | none => intro h; simp at h; exact Or.inl ⟨hq, Or.inr ⟨rfl, h.symm⟩⟩
    | some g2 => intro h; simp at h; exact Or.inl ⟨hq, Or.inl (by rw [h])⟩
  · intro h
    exact Or.inr ⟨by assumption, h⟩

/-! ## Preservation of the buffer pool invariant -/


theorem inv_fetchPageImpl (s : BPMState) (p : Int) (h : BPMInv s) :
    BPMInv (fetchPageImpl s p).2 := by
  unfold fetchPageImpl
  cases hpt : s.pageTable p with
  | some fid =>
    simp only
    refine ⟨?_, ?_, ?_, ?_, ?_, ?_⟩ <;> dsimp only
    · exact LRUReplacer.nodup_pin _ _ h.nodupReplacer
    · exact h.nodupFree
    · intro g hg
      have hgb : g ∈ s.replacer.buffer := LRUReplacer.mem_pin _ _ _ hg
      have hgfid : g ≠ fid := by
        intro he
        exact LRUReplacer.not_mem_pin_self _ _ h.nodupReplacer (he ▸ hg)
      rw [updFrame_ne _ _ _ _ hgfid]
      exact h.pinZero g hgb
    · intro f hf hmem
      exact h.freeNotInReplacer f hf (LRUReplacer.mem_pin _ _ _ hmem)
    · exact h.tableNotInFree
    · intro q g hq
      by_cases hgfid : g = fid
      · subst hgfid
        rw [updFrame_same]
        exact h.tablePageId q g hq
      · rw [updFrame_ne _ _ _ _ hgfid]
        exact h.tablePageId q g hq
  | none =>
    cases hfl : s.freeList with
    | cons fid rest =>
      simp only
      have hfidfree : fid ∈ s.freeList := by rw [hfl]; exact List.mem_cons_self fid rest
      have hnodfl : (fid :: rest).Nodup := hfl ▸ h.nodupFree
      refine ⟨?_, ?_, ?_, ?_, ?_, ?_⟩ <;> dsimp only
      · exact h.nodupReplacer
      · exact (List.nodup_cons.mp hnodfl).2
      · intro g hg
        have hgfid : g ≠ fid := by
          intro he
          exact h.freeNotInReplacer fid hfidfree (he ▸ hg)
        rw [updFrame_ne _ _ _ _ hgfid]
        exact h.pinZero g hg
      · intro f hf
        have : f ∈ s.freeList := by rw [hfl]; exact List.mem_cons_of_mem fid hf
        exact h.freeNotInReplacer f this
      · intro q g hq
        rcases ptInsert_eq_some _ _ _ _ _ hq with ⟨hqp, hcase⟩ | ⟨hqp, hcase⟩
        · rcases hcase with hsome | ⟨-, hgf⟩
          · rw [hpt] at hsome; cases hsome
          · subst hgf
            exact (List.nodup_cons.mp hnodfl).1
        · intro hmem
          exact h.tableNotInFree q g hcase (by rw [hfl]; exact List.mem_cons_of_mem fid hmem)
      · intro q g hq
        rcases ptInsert_eq_some _ _ _ _ _ hq with ⟨hqp, hcase⟩ | ⟨hqp, hcase⟩
        · rcases hcase with hsome | ⟨-, hgf⟩
          · rw [hpt] at hsome; cases hsome
          · subst hgf hqp
            rw [updFrame_same]
        · have hgfid : g ≠ fid := by
            intro he
            exact h.tableNotInFree q g hcase (he ▸ hfidfree)
          rw [updFrame_ne _ _ _ _ hgfid]
          exact h.tablePageId q g hcase
    | nil =>
      cases hv : s.replacer.victim with
      | mk ov r2 =>
        cases ov with
        | none => simpa using h
        | some fid =>
          simp only
          rcases LRUReplacer.victim_some _ _ _ hv with ⟨-, hbuf, hfidmem, hnotmem⟩
          refine ⟨?_, ?_, ?_, ?_, ?_, ?_⟩ <;> dsimp only
          · rw [hbuf]
            exact (List.dropLast_sublist _).nodup h.nodupReplacer
          · exact List.nodup_nil
          · intro g hg
            rw [hbuf] at hg
            have hgb : g ∈ s.replacer.buffer := (List.dropLast_sublist _).mem hg
            have hgfid : g ≠ fid := by
              intro he
              exact hnotmem h.nodupReplacer (he ▸ hbuf ▸ hg)
            rw [updFrame_ne _ _ _ _ hgfid]
            exact h.pinZero g hgb
          · intro f hf
            cases hf
          · intro q g hq hmem
            cases hmem
          · intro q g hq
            rcases ptInsert_eq_some _ _ _ _ _ hq with ⟨hqp, hcase⟩ | ⟨hqp, hcase⟩
            · rcases hcase with hsome | ⟨-, hgf⟩
              · rcases ptErase_eq_some _ _ _ _ hsome with ⟨hne, hsome2⟩
                rw [hpt] at hsome2; cases hsome2
              · subst hgf hqp
                rw [updFrame_same]
            · rcases ptErase_eq_some _ _ _ _ hcase with ⟨hne, hsome2⟩
              have hgfid : g ≠ fid := by
                intro he
                subst he
                exact hne (by rw [← h.tablePageId q g hsome2])
              rw [updFrame_ne _ _ _ _ hgfid]
              exact h.tablePageId q g hsome2

theorem inv_unpinPageImpl (s : BPMState) (p : Int) (d : Bool) (h : BPMInv s) :
    BPMInv (unpinPageImpl s p d).2 := by
  unfold unpinPageImpl
  cases hpt : s.pageTable p with
  | none => exact h
  | some fid =>
    simp only
    split
    · exact h
    · rename_i hpin
      have hpos : 0 < (s.frames fid).pinCount := by omega
      refine ⟨?_, ?_, ?_, ?_, ?_, ?_⟩ <;> dsimp only
      · by_cases hz : (s.frames fid).pinCount - 1 = 0
        · rw [if_pos hz]
          exact LRUReplacer.nodup_unpin _ _ h.nodupReplacer
        · rw [if_neg hz]
          exact h.nodupReplacer
      · exact h.nodupFree
      · intro g hg
        by_cases hgfid : g = fid
        · subst hgfid
          rw [updFrame_same]
          by_cases hz : (s.frames g).pinCount - 1 = 0
          · exact hz
          · rw [if_neg hz] at hg
            have := h.pinZero g hg
            omega
        · rw [updFrame_ne _ _ _ _ hgfid]
          apply h.pinZero
          by_cases hz : (s.frames fid).pinCount - 1 = 0
          · rw [if_pos hz] at hg
            rcases LRUReplacer.mem_unpin _ _ _ hg with he | hm
            · exact absurd he hgfid
            · exact hm
          · rw [if_neg hz] at hg
            exact hg
      · intro f hf hmem
        by_cases hz : (s.frames fid).pinCount - 1 = 0
        · rw [if_pos hz] at hmem
          rcases LRUReplacer.mem_unpin _ _ _ hmem with he | hm
          · subst he
            exact h.tableNotInFree p f hpt hf
          · exact h.freeNotInReplacer f hf hm
        · rw [if_neg hz] at hmem
          exact h.freeNotInReplacer f hf hmem
      · exact h.tableNotInFree
      · intro q g hq
        by_cases hgfid : g = fid
        · subst hgfid
          rw [updFrame_same]
          exact h.tablePageId q g hq
        · rw [updFrame_ne _ _ _ _ hgfid]
          exact h.tablePageId q g hq

theorem inv_newPageFrame (s : BPMState) (fid : Nat) (h : BPMInv s)
    (hbuf : fid ∉ s.replacer.buffer) (hfree : fid ∉ s.freeList)
    (huniq : ∀ q, s.pageTable q = some fid → q = (s.frames fid).pageId) :
    BPMInv (newPageFrame s fid).2 := by
  unfold newPageFrame
  refine ⟨?_, ?_, ?_, ?_, ?_, ?_⟩ <;> dsimp only
  · exact h.nodupReplacer
  · exact h.nodupFree
  · intro g hg
    have hgfid : g ≠ fid := fun he => hbuf (he ▸ hg)
    rw [updFrame_ne _ _ _ _ hgfid]
    exact h.pinZero g hg
  · exact h.freeNotInReplacer
  · intro q g hq
    rcases ptInsert_eq_some _ _ _ _ _ hq with ⟨hqp, hcase⟩ | ⟨hqp, hcase⟩
    · rcases hcase with hsome | ⟨-, hgf⟩
      · rcases ptErase_eq_some _ _ _ _ hsome with ⟨-, hsome2⟩
        exact h.tableNotInFree _ g hsome2
      · subst hgf
        exact hfree
    · rcases ptErase_eq_some _ _ _ _ hcase with ⟨-, hsome2⟩
      exact h.tableNotInFree q g hsome2
  · intro q g hq
    rcases ptInsert_eq_some _ _ _ _ _ hq with ⟨hqp, hcase⟩ | ⟨hqp, hcase⟩
    · rcases hcase with hsome | ⟨-, hgf⟩
      · rcases ptErase_eq_some _ _ _ _ hsome with ⟨hne, hsome2⟩
        have hgfid : g ≠ fid := by
          intro he
          subst he
          exact hne (huniq _ hsome2)
        rw [updFrame_ne _ _ _ _ hgfid]
        rw [hqp]
        exact h.tablePageId _ g hsome2
      · subst hgf hqp
        rw [updFrame_same]
    · rcases ptErase_eq_some _ _ _ _ hcase with ⟨hne, hsome2⟩
      have hgfid : g ≠ fid := by
        intro he
        subst he
        exact hne (huniq _ hsome2)
      rw [updFrame_ne _ _ _ _ hgfid]
      exact h.tablePageId q g hsome2

theorem inv_newPageImpl (s : BPMState) (h : BPMInv s) :
    BPMInv (newPageImpl s).2 := by
  unfold newPageImpl
  cases hfl : s.freeList with
  | cons fid rest =>
    simp only
    have hfidfree : fid ∈ s.freeList := by rw [hfl]; exact List.mem_cons_self fid rest
    have hnodfl : (fid :: rest).Nodup := hfl ▸ h.nodupFree
    apply inv_newPageFrame
    · refine ⟨h.nodupReplacer, (List.nodup_cons.mp hnodfl).2, h.pinZero, ?_, ?_, h.tablePageId⟩
      · intro f hf
        exact h.freeNotInReplacer f (by rw [hfl]; exact List.mem_cons_of_mem fid hf)
      · intro q g hq hmem
        exact h.tableNotInFree q g hq (by rw [hfl]; exact List.mem_cons_of_mem fid hmem)
    · exact h.freeNotInReplacer fid hfidfree
    · exact (List.nodup_cons.mp hnodfl).1
    · intro q hq
      exact absurd hfidfree (h.tableNotInFree q fid hq)
  | nil =>
    cases hv : s.replacer.victim with
    | mk ov r2 =>
      cases ov with
      | none => exact h
      | some fid =>
        simp only
        rcases LRUReplacer.victim_some _ _ _ hv with ⟨-, hbuf, hfidmem, hnotmem⟩
        apply inv_newPageFrame
        · refine ⟨?_, List.nodup_nil, ?_, ?_, ?_, h.tablePageId⟩
          · rw [hbuf]
            exact (List.dropLast_sublist _).nodup h.nodupReplacer
          · intro g hg
            rw [hbuf] at hg
            exact h.pinZero g ((List.dropLast_sublist _).mem hg)
          · intro f hf
            cases hf
          · intro q g hq hmem
            cases hmem
        · exact hnotmem h.nodupReplacer
        · exact List.not_mem_nil fid
        · intro q hq
          exact (h.tablePageId q fid hq).symm

theorem inv_deletePageImpl (s : BPMState) (p : Int) (h : BPMInv s) :
    BPMInv (deletePageImpl s p).2 := by
  unfold deletePageImpl
  cases hpt : s.pageTable p with
  | none => exact h
  | some fid =>
    simp only
    split
    · exact h
    · have hfidfree : fid ∉ s.freeList := h.tableNotInFree p fid hpt
      refine ⟨?_, ?_, ?_, ?_, ?_, ?_⟩ <;> dsimp only
      · exact LRUReplacer.nodup_pin _ _ h.nodupReplacer
      · rw [List.nodup_append]
        refine ⟨h.nodupFree, List.nodup_singleton fid, ?_⟩
        intro a ha hb
        rw [List.mem_singleton] at hb
        subst hb
        exact hfidfree ha
      · intro g hg
        have hgb : g ∈ s.replacer.buffer := LRUReplacer.mem_pin _ _ _ hg
        have hgfid : g ≠ fid := by
          intro he
          exact LRUReplacer.not_mem_pin_self _ _ h.nodupReplacer (he ▸ hg)
        rw [updFrame_ne _ _ _ _ hgfid]
        exact h.pinZero g hgb
      · intro f hf hmem
        rw [List.mem_append, List.mem_singleton] at hf
        rcases hf with hf | hf
        · exact h.freeNotInReplacer f hf (LRUReplacer.mem_pin _ _ _ hmem)
        · subst hf
          exact LRUReplacer.not_mem_pin_self _ _ h.nodupReplacer hmem
      · intro q g hq
        rcases ptErase_eq_some _ _ _ _ hq with ⟨hqp, hsome⟩
        have hgfid : g ≠ fid := by
          intro he
          subst he
          have h1 := h.tablePageId q g hsome
          have h2 := h.tablePageId p g hpt
          exact hqp (by rw [← h1, h2])
        rw [List.mem_append, List.mem_singleton]
        rintro (hmem | hmem)
        · exact h.tableNotInFree q g hsome hmem
        · exact hgfid hmem
      · intro q g hq
        rcases ptErase_eq_some _ _ _ _ hq with ⟨hqp, hsome⟩
        have hgfid : g ≠ fid := by
          intro he
          subst he
          have h1 := h.tablePageId q g hsome
          have h2 := h.tablePageId p g hpt
          exact hqp (by rw [← h1, h2])
        rw [updFrame_ne _ _ _ _ hgfid]
        exact h.tablePageId q g hsome

theorem inv_flushPageImpl (s : BPMState) (p : Int) (h : BPMInv s) :
    BPMInv (flushPageImpl s p).2 := by
  unfold flushPageImpl
  cases hpt : s.pageTable p with
  | none => exact h
  | some fid =>
    simp only
    refine ⟨h.nodupReplacer, h.nodupFree, ?_, h.freeNotInReplacer, h.tableNotInFree, ?_⟩ <;>
      dsimp only
    · intro g hg
      by_cases hgfid : g = fid
      · subst hgfid
        rw [updFrame_same]
        exact h.pinZero g hg
      · rw [updFrame_ne _ _ _ _ hgfid]
        exact h.pinZero g hg
    · intro q g hq
      by_cases hgfid : g = fid
      · subst hgfid
        rw [updFrame_same]
        exact h.tablePageId q g hq
      · rw [updFrame_ne _ _ _ _ hgfid]
        exact h.tablePageId q g hq

theorem inv_applyOp (s : BPMState) (op : BPMOp) (h : BPMInv s) :
    BPMInv (applyOp s op) := by
  cases op with
  | fetch p => exact inv_fetchPageImpl s p h
  | unpin p d => exact inv_unpinPageImpl s p d h
  | newp => exact inv_newPageImpl s h
  | delete p => exact inv_deletePageImpl s p h
  | flush p => exact inv_flushPageImpl s p h

theorem inv_initState (n : Nat) : BPMInv (initState n) := by
  refine ⟨List.nodup_nil, List.nodup_range n, ?_, ?_, ?_, ?_⟩ <;> dsimp only [initState]
  · intro f hf
    cases hf
  · intro f hf hmem
    cases hmem
  · intro q g hq
    cases hq
  · intro q g hq
    cases hq

theorem inv_foldl (ops : List BPMOp) (s : BPMState) (h : BPMInv s) :
    BPMInv (ops.foldl applyOp s) := by
  induction ops generalizing s with
  | nil => exact h
  | cons op rest ih =>
    rw [List.foldl_cons]
    exact ih (applyOp s op) (inv_applyOp s op h)

theorem inv_run (n : Nat) (ops : List BPMOp) : BPMInv (run n ops) :=
  inv_foldl ops (initState n) (inv_initState n)

/-! ## Claim theorems -/

/-- C3: in every buffer pool state reachable from the initial state (all
frames on the free list, page table and replacer empty) by any sequence of
FetchPage, UnpinPage, NewPage, DeletePage and FlushPage operations, every
frame currently in the replacer has pin count 0: a pinned frame is never in
the replacer. -/
theorem replacer_member_pin_count_zero (n : Nat) (ops : List BPMOp) (f : Nat)
    (hf : f ∈ (run n ops).replacer.buffer) :
    ((run n ops).frames f).pinCount = 0 :=
  (inv_run n ops).pinZero f hf

/-- Witness for replacer_member_pin_count_zero: in a pool of one frame, after
NewPage then UnpinPage the lone frame sits in the replacer with pin count 0. -/
theorem replacer_member_pin_count_zero_witness :
    0 ∈ (run 1 [BPMOp.newp, BPMOp.unpin 0 false]).replacer.buffer ∧
      ((run 1 [BPMOp.newp, BPMOp.unpin 0 false]).frames 0).pinCount = 0 :=
  ⟨by decide,
   replacer_member_pin_count_zero 1 [BPMOp.newp, BPMOp.unpin 0 false] 0 (by decide)⟩

/-- C1 (refuted, code bug): on the internal page with sentinel slot (0, 100)
and separator slots (10, 101), (20, 102), looking up key 20 must return the
value 102 of the greatest index whose key is at most 20 (index 2, per the
specification and per InternalPage.lookupSpec), but the source's binary search
exits with left = 1 because the loop guard left < right - 1 fails immediately,
and returns 101. -/
theorem internal_lookup_wrong_child :
    (let pg : InternalPage :=
      { pageId := 7, size := 3,
        arr := fun i => if i = 0 then (0, 100) else if i = 1 then (10, 101)
               else if i = 2 then (20, 102) else (0, 0) }
     pg.lookup 20 = 101 ∧ pg.lookupSpec 20 = 102 ∧ (20 : Int) ≤ (pg.arr (pg.size - 1)).1) := by
  decide

/-- C4 (refuted, code bug): starting from a fresh zeroed leaf page, after
Insert(10, 100), Insert(20, 200) and Remove(20), the page holds exactly the
sorted pair (10, 100), key 20 is absent and the size 1 is below any capacity;
yet Insert(20, 201) returns size 1 unchanged, refusing the insert, so the
subsequent Lookup(20) misses instead of returning 201. The duplicate check of
Insert reads the stale slot at index size, which still holds the removed key
20. -/
theorem leaf_insert_then_lookup_misses :
    (let pg0 : LeafPage := { size := 0, arr := fun _ => (0, 0) }
     let pg3 : LeafPage :=
       (((pg0.insert 10 100).2.insert 20 200).2.removeAndDeleteRecord 20).2
     pg3.entries = [(10, 100)] ∧ pg3.SortedKeys ∧ pg3.lookup 20 = none ∧
       (pg3.insert 20 201).1 = 1 ∧ (pg3.insert 20 201).2.lookup 20 = none ∧
       (pg3.insert 20 201).2.entries = [(10, 100)]) := by
  decide

/-- C9 (refuted, code bug): on the sorted leaf page holding the single pair
(10, 100), Insert of key 20 (greater than every stored key) runs its duplicate
check at slot index KeyIndex(20) = 1 = size, i.e. the comparison reads one
slot past the initialized region of the slot array, not an index in
[0, size). -/
theorem leaf_insert_reads_slot_at_size :
    (let pg : LeafPage := { size := 1, arr := fun i => if i = 0 then (10, 100) else (0, 0) }
     pg.SortedKeys ∧ pg.insertDupCheckIndex 20 = pg.size) := by
  decide

theorem LRUReplacer.unpin_absent_small (r : LRUReplacer) (f : Nat)
    (h1 : f ∉ r.buffer) (h2 : r.buffer.length < r.capacity) :
    r.unpin f = { capacity := r.capacity, buffer := f :: r.buffer } := by
  unfold LRUReplacer.unpin
  rw [if_neg h1, if_neg (by simp; omega)]

/-- C5: starting from an empty LRU replacer able to hold the three frames
(capacity at least 3), after Unpin(a), Unpin(b), Unpin(c) with a, b, c
distinct and no intervening Pin or Victim, three successive Victim calls
succeed and return a, then b, then c; moreover Unpin of an already present
frame leaves the replacer, contents and order, unchanged, so a repeated Unpin
does not alter which frame Victim returns. -/
theorem lru_fifo_order_and_idempotent_unpin (cap a b c : Nat) (hcap : 3 ≤ cap)
    (hab : a ≠ b) (hac : a ≠ c) (hbc : b ≠ c) :
    (let r0 : LRUReplacer := { capacity := cap, buffer := [] }
     let r3 := ((r0.unpin a).unpin b).unpin c
     r3.victim.1 = some a ∧
       r3.victim.2.victim.1 = some b ∧
       r3.victim.2.victim.2.victim.1 = some c) ∧
    (∀ r : LRUReplacer, ∀ f ∈ r.buffer, r.unpin f = r) := by
  constructor
  · have h1 : ({ capacity := cap, buffer := [] } : LRUReplacer).unpin a
        = { capacity := cap, buffer := [a] } :=
      LRUReplacer.unpin_absent_small _ a (List.not_mem_nil a) (by simp; omega)
    have h2 : ({ capacity := cap, buffer := [a] } : LRUReplacer).unpin b
        = { capacity := cap, buffer := [b, a] } :=
      LRUReplacer.unpin_absent_small _ b (by simp [Ne.symm hab]) (by simp; omega)
    have h3 : ({ capacity := cap, buffer := [b, a] } : LRUReplacer).unpin c
        = { capacity := cap, buffer := [c, b, a] } :=
      LRUReplacer.unpin_absent_small _ c
        (by simp [Ne.symm hac, Ne.symm hbc]) (by simp; omega)
    dsimp only
    rw [h1, h2, h3]
    exact ⟨rfl, rfl, rfl⟩
  · intro r f hf
    exact LRUReplacer.unpin_eq_of_mem r f hf

/-- Witness for lru_fifo_order_and_idempotent_unpin at capacity 3 and frames
0, 1, 2: the first Victim after the three Unpin calls returns frame 0. -/
theorem lru_fifo_order_and_idempotent_unpin_witness :
    (((({ capacity := 3, buffer := [] } : LRUReplacer).unpin 0).unpin 1).unpin 2).victim.1
      = some 0 :=
  (lru_fifo_order_and_idempotent_unpin 3 0 1 2 (by decide) (by decide) (by decide)
    (by decide)).1.1

/-- C6: for every buffer pool state (with the positive replacer capacity the
configuration guarantees) and page id, UnpinPage returns true and changes
nothing when the page is absent from the page table; returns false and changes
nothing when the mapped frame's pin count is at most 0; and otherwise returns
true, decrements the pin count by exactly one, leaves the frame in the
replacer exactly when it was already there or the new pin count is 0, and
merges the dirty hint with a logical or, never clearing a set dirty flag. -/
theorem unpinPage_contract (s : BPMState) (p : Int) (d : Bool)
    (hcap : 1 ≤ s.replacer.capacity) :
    (s.pageTable p = none → unpinPageImpl s p d = (true, s)) ∧
    (∀ fid, s.pageTable p = some fid → (s.frames fid).pinCount ≤ 0 →
      unpinPageImpl s p d = (false, s)) ∧
    (∀ fid, s.pageTable p = some fid → 0 < (s.frames fid).pinCount →
      (unpinPageImpl s p d).1 = true ∧
      ((unpinPageImpl s p d).2.frames fid).pinCount = (s.frames fid).pinCount - 1 ∧
      ((unpinPageImpl s p d).2.frames fid).isDirty = ((s.frames fid).isDirty || d) ∧
      (fid ∈ (unpinPageImpl s p d).2.replacer.buffer ↔
        (fid ∈ s.replacer.buffer ∨ (s.frames fid).pinCount = 1))) := by
  refine ⟨?_, ?_, ?_⟩
  · intro h
    unfold unpinPageImpl
    rw [h]
  · intro fid h hle
    unfold unpinPageImpl
    rw [h]
    simp only
    rw [if_pos hle]
  · intro fid h hpos
    unfold unpinPageImpl
    rw [h]
    simp only
    rw [if_neg (by omega)]
    refine ⟨rfl, ?_, ?_, ?_⟩ <;> dsimp only
    · rw [updFrame_same]
    · rw [updFrame_same]
    · by_cases hz : (s.frames fid).pinCount - 1 = 0
      · rw [if_pos hz]
        constructor
        · intro _
          right
          omega
        · intro _
          exact LRUReplacer.mem_unpin_self _ _ hcap
      · rw [if_neg hz]
        constructor
        · intro hm
          left
          exact hm
        · rintro (hm | h1)
          · exact hm
          · omega

/-- Witness for unpinPage_contract: after NewPage in a pool of one frame,
UnpinPage on page 0 succeeds and drops the pin count from 1 to 0. -/
theorem unpinPage_contract_witness :
    (unpinPageImpl (run 1 [BPMOp.newp]) 0 true).1 = true ∧
      ((unpinPageImpl (run 1 [BPMOp.newp]) 0 true).2.frames 0).pinCount = 0 := by
  have h := (unpinPage_contract (run 1 [BPMOp.newp]) 0 true (by decide)).2.2 0
    (by decide) (by decide)
  refine ⟨h.1, ?_⟩
  rw [h.2.1]
  decide

/-- C10: when the free list is empty and the replacer holds no victim, NewPage
returns null having changed nothing: page table, free list, replacer, frames
and the disk allocation cursor (so AllocatePage was never called) are exactly
as before, and no page id is produced. -/
theorem newPage_exhausted_no_change (s : BPMState) (h1 : s.freeList = [])
    (h2 : s.replacer.buffer = []) : newPageImpl s = (none, s) := by
  unfold newPageImpl
  rw [h1, LRUReplacer.victim_none _ h2]

/-- Witness for newPage_exhausted_no_change: a pool of zero frames. -/
theorem newPage_exhausted_no_change_witness :
    newPageImpl (initState 0) = (none, initState 0) :=
  newPage_exhausted_no_change (initState 0) rfl rfl

/-- C7: NewPage, and FetchPage for a page id absent from the page table,
return null exactly when the free list is empty and the replacer yields no
victim (its buffer is empty, every frame pinned); and in the concrete pool of
size 3 three consecutive NewPage calls return frames 0, 1, 2 with page ids 0,
1, 2, each pinned with pin count 1, while the fourth returns null. -/
theorem newPage_fetchPage_none_iff_exhausted :
    (∀ s : BPMState, (newPageImpl s).1 = none ↔
      (s.freeList = [] ∧ s.replacer.buffer = [])) ∧
    (∀ s : BPMState, ∀ p : Int, s.pageTable p = none →
      ((fetchPageImpl s p).1 = none ↔ (s.freeList = [] ∧ s.replacer.buffer = []))) ∧
    (let s0 := initState 3
     let r1 := newPageImpl s0
     let r2 := newPageImpl r1.2
     let r3 := newPageImpl r2.2
     let r4 := newPageImpl r3.2
     r1.1 = some (0, 0) ∧ (r1.2.frames 0).pinCount = 1 ∧
       r2.1 = some (1, 1) ∧ (r2.2.frames 1).pinCount = 1 ∧
       r3.1 = some (2, 2) ∧ (r3.2.frames 2).pinCount = 1 ∧
       r4.1 = none) := by
  refine ⟨?_, ?_, ?_⟩
  · intro s
    unfold newPageImpl
    cases hfl : s.freeList with
    | cons fid rest => simp [newPageFrame]
    | nil =>
      cases hv : s.replacer.victim with
      | mk ov r2 =>
        cases ov with
        | some fid =>
          have hne : s.replacer.buffer ≠ [] := by
            intro hb
            rw [LRUReplacer.victim_none _ hb] at hv
            cases hv
          simp [newPageFrame, hne]
        | none =>
          have hb : s.replacer.buffer = [] := by
            have := LRUReplacer.victim_none_iff s.replacer
            rw [hv] at this
            exact this.mp rfl
          simp [hb]
  · intro s p hpt
    unfold fetchPageImpl
    rw [hpt]
    cases hfl : s.freeList with
    | cons fid rest => simp
    | nil =>
      cases hv : s.replacer.victim with
      | mk ov r2 =>
        cases ov with
        | some fid =>
          have hne : s.replacer.buffer ≠ [] := by
            intro hb
            rw [LRUReplacer.victim_none _ hb] at hv
            cases hv
          simp [hne]
        | none =>
          have hb : s.replacer.buffer = [] := by
            have := LRUReplacer.victim_none_iff s.replacer
            rw [hv] at this
            exact this.mp rfl
          simp [hb]
  · decide

/-! ## Entries lemmas for the split and merge operations -/

theorem LeafPage.entries_insertAt_size (pg : LeafPage) (pair : Int × Int) :
    (pg.insertAt pg.size pair).entries = pg.entries ++ [pair] := by
  unfold LeafPage.insertAt LeafPage.entries
  dsimp only
  rw [List.range_succ, List.map_append]
  congr 1
  · apply List.map_congr_left
    intro j hj
    rw [List.mem_range] at hj
    rw [if_neg (by omega)]
    by_cases hz : pg.size = 0
    · rw [if_pos hz]
    · rw [if_neg hz, if_neg (by omega)]
  · simp

theorem LeafPage.entries_copyNFrom (pg : LeafPage) (items : Nat → Int × Int) (n : Nat) :
    (pg.copyNFrom items n).entries = pg.entries ++ (List.range n).map items := by
  induction n with
  | zero => simp [LeafPage.copyNFrom]
  | succ n ih =>
    have hstep : pg.copyNFrom items (n + 1)
        = (pg.copyNFrom items n).insertAt (pg.copyNFrom items n).size (items n) := by
      unfold LeafPage.copyNFrom
      rw [List.range_succ, List.foldl_append, List.foldl_cons, List.foldl_nil]
    rw [hstep, LeafPage.entries_insertAt_size, ih, List.range_succ, List.map_append,
      List.append_assoc]
    simp

/-- C8: for every sorted leaf page of size at least 2, MoveHalfTo appends
exactly the trailing floor(size / 2) pairs of the source, in order, to the
recipient, decreases the source's size by floor(size / 2) and leaves the
leading pairs unchanged; and concretely, a leaf holding keys 10, 20, 30, 40
keeps the pairs at 10 and 20, an initially empty recipient ends with the pairs
at 30 and 40, Lookup(30) misses on the source and hits on the recipient. -/
theorem leaf_moveHalfTo_splits (src recip : LeafPage) (hs : src.SortedKeys)
    (h2 : 2 ≤ src.size) :
    ((src.moveHalfTo recip).1.entries = src.entries.take (src.size - src.size / 2) ∧
     (src.moveHalfTo recip).1.size = src.size - src.size / 2 ∧
     (src.moveHalfTo recip).2.entries
       = recip.entries ++ src.entries.drop (src.size - src.size / 2)) ∧
    (let src4 : LeafPage :=
       { size := 4,
         arr := fun i => if i = 0 then (10, 100) else if i = 1 then (20, 200)
                else if i = 2 then (30, 300) else if i = 3 then (40, 400) else (0, 0) }
     let recip0 : LeafPage := { size := 0, arr := fun _ => (0, 0) }
     (src4.moveHalfTo recip0).1.entries = [(10, 100), (20, 200)] ∧
       (src4.moveHalfTo recip0).2.entries = [(30, 300), (40, 400)] ∧
       (src4.moveHalfTo recip0).1.lookup 30 = none ∧
       (src4.moveHalfTo recip0).2.lookup 30 = some 300) := by
  constructor
  · have hhalf : src.size / 2 ≤ src.size := Nat.div_le_self _ _
    have hsum : (src.size - src.size / 2) + src.size / 2 = src.size := by omega
    refine ⟨?_, rfl, ?_⟩
    · unfold LeafPage.moveHalfTo LeafPage.entries
      dsimp only
      rw [← List.map_take, List.take_range, Nat.min_eq_left (by omega)]
    · unfold LeafPage.moveHalfTo
      dsimp only
      rw [LeafPage.entries_copyNFrom]
      congr 1
      unfold LeafPage.entries
      rw [← List.map_drop]
      set m := src.size - src.size / 2 with hm
      set hl := src.size / 2 with hh
      have hsum2 : src.size = m + hl := by omega
      rw [hsum2, List.range_add, List.drop_left' (List.length_range m), List.map_map]
      apply List.map_congr_left
      intro j hj
      rfl
  · decide

/-- Witness for leaf_moveHalfTo_splits at the concrete four-slot page: the
general conclusion instantiated there. -/
theorem leaf_moveHalfTo_splits_witness :
    (let src4 : LeafPage :=
       { size := 4,
         arr := fun i => if i = 0 then (10, 100) else if i = 1 then (20, 200)
                else if i = 2 then (30, 300) else if i = 3 then (40, 400) else (0, 0) }
     let recip0 : LeafPage := { size := 0, arr := fun _ => (0, 0) }
     (src4.moveHalfTo recip0).1.entries = src4.entries.take (src4.size - src4.size / 2) ∧
       (src4.moveHalfTo recip0).2.entries
         = recip0.entries ++ src4.entries.drop (src4.size - src4.size / 2)) := by
  refine ⟨?_, ?_⟩
  · exact (leaf_moveHalfTo_splits _ _ (by decide) (by decide)).1.1
  · exact (leaf_moveHalfTo_splits _ _ (by decide) (by decide)).1.2.2

theorem InternalPage.entries_insertAt_end (pg : InternalPage) (pair : Int × Int) :
    (pg.insertAt pg.size pair).entries = pg.entries ++ [pair] := by
  unfold InternalPage.insertAt InternalPage.entries
  dsimp only
  rw [List.range_succ, List.map_append]
  congr 1
  · apply List.map_congr_left
    intro j hj
    rw [List.mem_range] at hj
    rw [if_neg (by omega)]
    by_cases hz : pg.size = 0
    · rw [if_pos hz]
    · rw [if_neg hz, if_neg (by omega)]
  · simp

theorem InternalPage.copyNFrom_spec (pg : InternalPage) (items : Nat → Int × Int)
    (n : Nat) (par : Int → Int) :
    (pg.copyNFrom items n par).1.entries = pg.entries ++ (List.range n).map items ∧
    (pg.copyNFrom items n par).1.pageId = pg.pageId ∧
    (∀ i < n, (pg.copyNFrom items n par).2 (items i).2 = pg.pageId) ∧
    (∀ q, (pg.copyNFrom items n par).2 q = pg.pageId ∨
      (pg.copyNFrom items n par).2 q = par q) := by
  induction n with
  | zero =>
    refine ⟨by simp [InternalPage.copyNFrom], rfl, ?_, ?_⟩
    · intro i hi
      cases hi
    · intro q
      exact Or.inr rfl
  | succ n ih =>
    have hstep : pg.copyNFrom items (n + 1) par
        = ((pg.copyNFrom items n par).1.copyLastFrom (items n)
            (pg.copyNFrom items n par).2) := by
      unfold InternalPage.copyNFrom
      rw [List.range_succ, List.foldl_append, List.foldl_cons, List.foldl_nil]
    rcases ih with ⟨ihe, ihp, ihm, iho⟩
    rw [hstep]
    unfold InternalPage.copyLastFrom
    refine ⟨?_, ?_, ?_, ?_⟩ <;> dsimp only
    · rw [InternalPage.entries_insertAt_end, ihe, List.range_succ, List.map_append,
        List.append_assoc]
      simp
    · exact ihp
    · intro i hi
      unfold InternalPage.setParentToMe
      by_cases he : (items i).2 = (items n).2
      · rw [if_pos he]
        exact ihp
      · rw [if_neg he]
        have hin : i < n := by
          rcases Nat.lt_succ_iff_lt_or_eq.mp hi with hlt | heq
          · exact hlt
          · exact absurd (by rw [heq]) he
        exact ihm i hin
    · intro q
      unfold InternalPage.setParentToMe
      by_cases he : q = (items n).2
      · rw [if_pos he]
        exact Or.inl ihp
      · rw [if_neg he]
        exact iho q

/-- C2: for every internal page of size at least 1 and every middle key,
MoveAllTo(recipient, middle_key, bpm) appends to the recipient, in order, the
pair of the middle key and the source's original first child followed by the
source's original entries at indices 1 up to size; the source's size becomes
0; and every moved child (the original first child and the children of the
moved entries) has its stored parent page id set to the recipient's page id. -/
theorem internal_moveAllTo_spec (src recip : InternalPage) (mkey : Int)
    (par : Int → Int) (h1 : 1 ≤ src.size) :
    (src.moveAllTo recip mkey par).1.size = 0 ∧
    (src.moveAllTo recip mkey par).2.1.entries
      = recip.entries ++ (mkey, (src.arr 0).2) :: src.entries.drop 1 ∧
    (src.moveAllTo recip mkey par).2.2 (src.arr 0).2 = recip.pageId ∧
    (∀ i, 1 ≤ i → i < src.size → (src.moveAllTo recip mkey par).2.2 (src.arr i).2
      = recip.pageId) := by
  unfold InternalPage.moveAllTo InternalPage.moveFirstToEndOf InternalPage.copyLastFrom
  dsimp only
  rcases InternalPage.copyNFrom_spec (recip.insertAt recip.size (mkey, (src.arr 0).2))
      (src.remove 0).arr (src.remove 0).size
      (recip.setParentToMe (src.arr 0).2 par) with ⟨he, hp, hm, ho⟩
  have hpid : (recip.insertAt recip.size (mkey, (src.arr 0).2)).pageId = recip.pageId := rfl
  have hragree : ∀ j ∈ List.range (src.remove 0).size,
      (src.remove 0).arr j = src.arr (j + 1) := by
    intro j hj
    rw [List.mem_range] at hj
    unfold InternalPage.remove at hj ⊢
    dsimp only at hj ⊢
    rw [if_pos (by omega)]
  refine ⟨rfl, ?_, ?_, ?_⟩
  · rw [he, InternalPage.entries_insertAt_end, List.append_assoc]
    congr 2
    rw [List.map_congr_left hragree]
    unfold InternalPage.entries InternalPage.remove
    dsimp only
    cases hsz : src.size with
    | zero => omega
    | succ n =>
      rw [List.range_succ_eq_map]
      simp only [List.map_cons, List.drop_one, List.tail_cons, List.map_map,
        Nat.succ_sub_one]
      rw [List.singleton_append]
      rfl
  · rcases ho (src.arr 0).2 with h | h
    · rw [h, hpid]
    · rw [h]
      unfold InternalPage.setParentToMe
      rw [if_pos rfl]
  · intro i hge hlt
    have hji : (src.remove 0).arr (i - 1) = src.arr i := by
      unfold InternalPage.remove
      dsimp only
      rw [if_pos (by omega)]
      congr 1
      omega
    have hsz : i - 1 < (src.remove 0).size := by
      unfold InternalPage.remove
      dsimp only
      omega
    have := hm (i - 1) hsz
    rw [hji] at this
    rw [this, hpid]

/-- Witness for internal_moveAllTo_spec: a two-entry source page merged into
an empty recipient with page id 9; the source empties and the first child's
parent pointer now names the recipient. -/
theorem internal_moveAllTo_spec_witness :
    (let isrc : InternalPage :=
       { pageId := 3, size := 2,
         arr := fun i => if i = 0 then (0, 50) else if i = 1 then (7, 60) else (0, 0) }
     let irec : InternalPage := { pageId := 9, size := 0, arr := fun _ => (0, 0) }
     (isrc.moveAllTo irec 5 (fun _ => 0)).1.size = 0 ∧
       (isrc.moveAllTo irec 5 (fun _ => 0)).2.2 (isrc.arr 0).2 = irec.pageId) := by
  refine ⟨?_, ?_⟩
  · exact (internal_moveAllTo_spec _ _ 5 (fun _ => 0) (by decide)).1
  · exact (internal_moveAllTo_spec _ _ 5 (fun _ => 0) (by decide)).2.2.1

/-- Witness for newPage_fetchPage_none_iff_exhausted: in an empty pool of zero
frames, fetching the uncached page 5 yields null. -/
theorem newPage_fetchPage_none_iff_exhausted_witness :
    (fetchPageImpl (initState 0) 5).1 = none :=
  (newPage_fetchPage_none_iff_exhausted.2.1 (initState 0) 5 rfl).mpr ⟨rfl, rfl⟩
